import Mathlib

/-!
Verification of the taro_bot services against their natural-language
specification.  The Python services are shallowly embedded: pure helpers
become Lean functions on `Nat`/`Int`/`String`/`List`, the ORM-backed
state becomes an explicit `DB` record threaded through each operation,
and the process-wide random source becomes an explicit stream parameter.
All definitions are translated from the source files under `bot/`;
definitions that instead formalise the specification's wording (for
refinement comparisons) say so in their doc comment.
-/

open scoped List

/-- Fuel-indexed digit-sum loop.  `digitSumGo fuel v` models the Python
expression `sum(int(d) for d in str(value))` from
`bot/services/numerology.py` (`_digital_root`): it adds the decimal
digits of `v`, peeling one digit per fuel step.  Fuel `v` is always
enough because `v / 10 < v` once `v ≥ 10`. -/
def digitSumGo : Nat → Nat → Nat
  | 0, v => v
  | fuel + 1, v => if v < 10 then v else v % 10 + digitSumGo fuel (v / 10)

/-- Sum of the decimal digits of `n` (the body of one iteration of the
`while` loop in `_digital_root`). -/
def digitSum (n : Nat) : Nat := digitSumGo n n

/-- Fuel-indexed reduction loop of `_digital_root`
(`bot/services/numerology.py` lines 27-30): `while value > 9: value =
digitSum value`.  Each iteration strictly decreases the value, so fuel
`v` suffices. -/
def digitalRootGo : Nat → Nat → Nat
  | 0, v => v
  | fuel + 1, v => if v ≤ 9 then v else digitalRootGo fuel (digitSum v)

/-- `_digital_root` from `bot/services/numerology.py`: repeatedly sum
decimal digits while the value exceeds 9. -/
def digital_root (n : Nat) : Nat := digitalRootGo n n

/-- Python `str.lower` on a single code point, restricted to the ASCII
and Cyrillic repertoires used by the bot's two locales (`ru`/`en`); all
other code points are left unchanged by this model.  ASCII `A`-`Z`
(65-90) and Cyrillic `А`-`Я` (1040-1071) shift by 32; `Ё` (1025) maps
to `ё` (1105). -/
def pyLowerCode (n : Nat) : Nat :=
  if (65 ≤ n ∧ n ≤ 90) ∨ (1040 ≤ n ∧ n ≤ 1071) then n + 32
  else if n = 1025 then 1105
  else n

/-- Python `str.isalpha` on a single code point, restricted to the
ASCII and Cyrillic repertoires used by the bot's locales: ASCII letters
(65-90, 97-122), Cyrillic letters (1040-1071, 1072-1103) and `Ё`/`ё`
(1025, 1105).  Code points outside these ranges are treated as
non-alphabetic by this model. -/
def pyIsAlphaCode (n : Nat) : Bool :=
  decide ((97 ≤ n ∧ n ≤ 122) ∨ (65 ≤ n ∧ n ≤ 90) ∨
    (1072 ≤ n ∧ n ≤ 1103) ∨ (1040 ≤ n ∧ n ≤ 1071) ∨ n = 1105 ∨ n = 1025)

/-- Number component of `name_number` (`bot/services/numerology.py`
lines 51-56): lower-case the name, keep the alphabetic characters, sum
`ord(char) - 96` over them, and reduce with `_digital_root` when the
sum is positive, else return 0.  (The description lookup performed by
the Python function is an ORM read outside these claims.) -/
def name_number (name : String) : Nat :=
  let normalized := ((name.toList.map Char.toNat).map pyLowerCode).filter pyIsAlphaCode
  let position_sum := (normalized.map (fun n => n - 96)).sum
  if 0 < position_sum then digital_root position_sum else 0

/-- Formalisation of the specification's wording for `nameNumber`, for
comparison with `name_number`: filter to characters of the Latin
alphabet, map each case-insensitively to its 1-based position
(`a` = 1, ..., `z` = 26), sum, and reduce; an all-non-Latin name yields
0 with no reduction. -/
def nameNumberLatinSpec (name : String) : Nat :=
  let letters := ((name.toList.map Char.toNat).map pyLowerCode).filter
    (fun n => decide (97 ≤ n ∧ n ≤ 122))
  let position_sum := (letters.map (fun n => n - 96)).sum
  if 0 < position_sum then digital_root position_sum else 0

/-- Number component of `destiny_number` (`bot/services/numerology.py`
lines 40-48): `_digital_root(day + month + year)`. -/
def destiny_number (day month year : Nat) : Nat := digital_root (day + month + year)

/-- Result record of `compatibility` (`bot/services/numerology.py`),
without the constant description string. -/
structure CompatibilityResult where
  first_number : Nat
  second_number : Nat
  score : Int
deriving DecidableEq

/-- `compatibility` from `bot/services/numerology.py` lines 75-87:
destiny numbers of both birth dates, `score = 10 - abs(a - b)`, clamped
below by 1 via `max(score, 1)`. -/
def compatibility (first second : Nat × Nat × Nat) : CompatibilityResult :=
  let first_destiny := destiny_number first.1 first.2.1 first.2.2
  let second_destiny := destiny_number second.1 second.2.1 second.2.2
  let score : Int := 10 - (((first_destiny : Int) - (second_destiny : Int)).natAbs : Int)
  { first_number := first_destiny
    second_number := second_destiny
    score := max score 1 }

/-- `TarotCardView` from `bot/services/tarot.py`: the in-memory view of
one deck card, with its two stored meanings. -/
structure TarotCardView where
  name : String
  upright : String
  reversed : String
  arcana_type : String
  suit : Option String
deriving DecidableEq

/-- `DrawnCard` from `bot/services/tarot.py`: one drawn card tagged
with an orientation label and the meaning that orientation selects. -/
structure DrawnCard where
  name : String
  position : String
  meaning : String
deriving DecidableEq

/-- Model of `random.sample(cards, k)` (sampling without replacement):
`k` times, remove the card at index `rand t % |pool|` from the pool.
`rand` is the explicit random source (an arbitrary stream of naturals),
`t` its read position.  Any sequence of removals realises some
without-replacement sample, and every sample is realised by some
stream. -/
def sample {α : Type} (rand : Nat → Nat) : Nat → Nat → List α → List α
  | _, 0, _ => []
  | t, k + 1, pool =>
    if h : 0 < pool.length then
      let i : Fin pool.length := ⟨rand t % pool.length, Nat.mod_lt _ h⟩
      pool.get i :: sample rand (t + 1) k (pool.eraseIdx i.val)
    else []

/-- Orientation pass of `draw_cards` (`bot/services/tarot.py` lines
47-52): for each selected card draw `is_reversed = random.choice([True,
False])` from the boolean stream `orientR` and emit the reversed or
upright view accordingly. -/
def orient : List TarotCardView → (Nat → Bool) → Nat → List DrawnCard
  | [], _, _ => []
  | c :: cs, orientR, t =>
    (if orientR t then DrawnCard.mk c.name ("Перевёрнутая") c.reversed
     else DrawnCard.mk c.name ("Прямое") c.upright) :: orient cs orientR (t + 1)

/-- `draw_cards` from `bot/services/tarot.py` lines 41-53: on an empty
deck return `[]`; otherwise sample `min(count, len(cards))` cards
without replacement and assign each an orientation.  The deck is passed
explicitly (the Python `session`/`deck` loading is an ORM read). -/
def draw_cards (cards : List TarotCardView) (count : Nat)
    (sampleR : Nat → Nat) (orientR : Nat → Bool) : List DrawnCard :=
  if cards.isEmpty then []
  else orient (sample sampleR 0 (min count cards.length) cards) orientR 0

/-- `_format_cards` from `bot/services/tarot.py` lines 56-62: an empty
draw renders the explicit no-cards text, otherwise the title line
followed by one numbered line per card in draw order. -/
def format_cards (title : String) (cards : List DrawnCard) : String :=
  if cards.isEmpty then title ++ (": нет доступных карт")
  else
    String.intercalate ("\n")
      (title :: cards.enum.map (fun p =>
        toString (p.1 + 1) ++ (". ") ++ p.2.name ++ (" — ") ++ p.2.position ++ (". ") ++ p.2.meaning))

/-- `spread_one_card` from `bot/services/tarot.py`: draw one card and
format it under the fixed title. -/
def spread_one_card (cards : List TarotCardView) (sampleR : Nat → Nat) (orientR : Nat → Bool) : String :=
  format_cards ("Совет дня") (draw_cards cards 1 sampleR orientR)

/-- `ZodiacSign` row from `bot/models.py` lines 41-46: sign name,
`MM-DD` boundary strings and a description. -/
structure ZodiacSign where
  name : String
  date_start : String
  date_end : String
  description : String
deriving DecidableEq

/-- Python `str.split` on a one-character separator, over the
character list of the string. -/
def splitOnChar (sep : Char) : List Char → List (List Char)
  | [] => [[]]
  | c :: cs =>
    let rest := splitOnChar sep cs
    if c == sep then [] :: rest
    else
      match rest with
      | [] => [[c]]
      | g :: gs => (c :: g) :: gs

/-- Value of a nonempty all-decimal-digit character list, as accepted
by Python `int` on the seeded `MM-DD` fields. -/
def decDigits? (cs : List Char) : Option Nat :=
  if cs.isEmpty then none
  else if cs.all Char.isDigit then
    some (cs.foldl (fun acc c => 10 * acc + (c.toNat - 48)) 0)
  else none

/-- `map(int, s.split("-"))` applied to a `MM-DD` boundary string in
`zodiac_for_date`.  A malformed string (which would raise in Python and
never occurs in the seeded table) defaults to `(0, 0)`. -/
def parse_month_day (s : String) : Nat × Nat :=
  match splitOnChar '-' s.toList with
  | [m, d] => ((decDigits? m).getD 0, (decDigits? d).getD 0)
  | _ => (0, 0)

/-- Python tuple order `a <= b` on `(month, day)` pairs
(lexicographic). -/
def pair_le (a b : Nat × Nat) : Bool :=
  decide (a.1 < b.1 ∨ (a.1 = b.1 ∧ a.2 ≤ b.2))

/-- Match test of one loop iteration of `zodiac_for_date`
(`bot/services/astrology.py` lines 53-63): the year-wrap branch is
taken exactly when `start_month > end_month`; the wrap branch tests
`target >= start or target <= end`, the plain branch tests
`start <= target <= end`. -/
def zodiac_matches (sign : ZodiacSign) (target : Nat × Nat) : Bool :=
  let s := parse_month_day sign.date_start
  let e := parse_month_day sign.date_end
  if s.1 > e.1 then pair_le s target || pair_le target e
  else pair_le s target && pair_le target e

/-- `zodiac_for_date` from `bot/services/astrology.py` lines 50-64:
linear scan returning the first sign whose range matches, or `none`.
Only `(target.month, target.day)` of the date is consulted, so the
embedding takes a `(month, day)` pair; the sign list is passed
explicitly (the Python `select(ZodiacSign)` is an ORM read returning
the rows in insertion order). -/
def zodiac_for_date : List ZodiacSign → Nat × Nat → Option ZodiacSign
  | [], _ => none
  | sign :: rest, target =>
    if zodiac_matches sign target then some sign else zodiac_for_date rest target

/-- Formalisation of the specification's wording of the match rule, for
comparison with `zodiac_matches`: the year-wrap branch is taken exactly
when `start > end` as `(month, day)` pairs (not merely when the months
compare greater). -/
def specZodiacMatches (sign : ZodiacSign) (target : Nat × Nat) : Bool :=
  let s := parse_month_day sign.date_start
  let e := parse_month_day sign.date_end
  if pair_le s e then pair_le s target && pair_le target e
  else pair_le s target || pair_le target e

/-- Formalisation of the specification's `zodiacForDate`, for
comparison: first sign matching `specZodiacMatches`, or none. -/
def zodiacForDateSpec (signs : List ZodiacSign) (target : Nat × Nat) : Option ZodiacSign :=
  signs.find? (fun sign => specZodiacMatches sign target)

/-- `zodiac_seed` from `bot/seed_data.py` lines 90-104: the twelve
seeded sign rows in insertion order. -/
def zodiac_seed : List ZodiacSign :=
  [⟨("Козерог"), ("12-22"), ("01-19"), ("Стратег, дисциплина, надёжность.")⟩,
   ⟨("Водолей"), ("01-20"), ("02-18"), ("Идеи, инновации, независимость.")⟩,
   ⟨("Рыбы"), ("02-19"), ("03-20"), ("Интуиция, эмпатия, мечтательность.")⟩,
   ⟨("Овен"), ("03-21"), ("04-19"), ("Энергия, решительность, действие.")⟩,
   ⟨("Телец"), ("04-20"), ("05-20"), ("Практичность, устойчивость, чувственность.")⟩,
   ⟨("Близнецы"), ("05-21"), ("06-20"), ("Коммуникация, адаптивность, любопытство.")⟩,
   ⟨("Рак"), ("06-21"), ("07-22"), ("Забота, глубина, дом и семья.")⟩,
   ⟨("Лев"), ("07-23"), ("08-22"), ("Лидерство, яркость, креативность.")⟩,
   ⟨("Дева"), ("08-23"), ("09-22"), ("Аналитика, порядок, полезность.")⟩,
   ⟨("Весы"), ("09-23"), ("10-22"), ("Баланс, красота, дипломатия.")⟩,
   ⟨("Скорпион"), ("10-23"), ("11-21"), ("Страсть, трансформация, глубина.")⟩,
   ⟨("Стрелец"), ("11-22"), ("12-21"), ("Свобода, смысл, исследования.")⟩]

/-- A synthetic sign table row whose range starts and ends in the same
month with `start > end` as pairs, used to separate the code's wrap
test (`start_month > end_month`) from the specification's (`start >
end`). -/
def wrapTestSign : ZodiacSign := ⟨("Тест"), ("05-20"), ("05-10"), ("проверка")⟩

/-- `User` row from `bot/models.py` lines 9-21, restricted to the
fields the verified operations read or write: primary key `id`, the
referral back-reference `referred_by` and the bonus-credit balance
`free_spreads`.  Balances are Python ints, hence `Int`. -/
structure User where
  id : Int
  referred_by : Option Int
  free_spreads : Int
deriving DecidableEq

/-- `SpreadHistory` row from `bot/models.py` lines 49-56.  The row has
no bonus-funded field.  The `created_at` timestamp is abstracted to the
UTC calendar day it falls in (`created_day`), so membership of the
half-open day interval `[startOfDay, startOfNextDay)` becomes equality
of day indices. -/
structure SpreadHistory where
  user_id : Int
  spread_type : String
  spread_name : String
  input_data : String
  result : String
  created_day : Nat
deriving DecidableEq

/-- `Referral` row from `bot/models.py` lines 67-70 (creation time
omitted: no verified operation reads it). -/
structure Referral where
  inviter_id : Int
  invited_id : Int
deriving DecidableEq

/-- `ReferralSettings` dataclass from `bot/services/settings.py`. -/
structure ReferralSettings where
  bonus : Int
  welcome_bonus : Int
  enabled : Bool
deriving DecidableEq

/-- `ReferralResult` dataclass from `bot/services/referrals.py`. -/
structure ReferralResult where
  inviter : Option User
  bonus_applied : Bool
deriving DecidableEq

/-- The relational store as seen by the verified operations: the user,
usage-history and referral tables. -/
structure DB where
  users : List User
  history : List SpreadHistory
  referrals : List Referral
deriving DecidableEq

/-- `session.get(User, uid)`: fetch a user row by primary key. -/
def db_get_user (db : DB) (uid : Int) : Option User :=
  db.users.find? (fun u => u.id == uid)

/-- `daily_usage_count` from `bot/services/history.py` lines 11-20:
number of history rows of `uid` whose timestamp falls in the current
UTC day (modelled as day-index equality with `today`). -/
def daily_usage_count (db : DB) (today : Nat) (uid : Int) : Nat :=
  (db.history.filter (fun h => h.user_id == uid && h.created_day == today)).length

/-- `save_spread` from `bot/services/history.py` lines 23-49: when a
daily limit is supplied, the user exists, today's usage count has
reached the limit and the bonus balance is positive, decrement the
balance by one and report `bonus_used = True`; in every case append
exactly one history row.  The appended row is identical in all cases —
`SpreadHistory` has no bonus field. -/
def save_spread (db : DB) (today : Nat) (uid : Int)
    (spread_type spread_name input_data result : String)
    (daily_limit : Option Int) : Bool × DB :=
  let bonus_used :=
    match daily_limit with
    | none => false
    | some limit =>
      match db_get_user db uid with
      | none => false
      | some u => decide (limit ≤ (daily_usage_count db today uid : Int)) && decide (0 < u.free_spreads)
  let dbU :=
    if bonus_used then
      { db with users := db.users.map (fun u =>
          if u.id == uid then { u with free_spreads := u.free_spreads - 1 } else u) }
    else db
  (bonus_used,
   { dbU with history := dbU.history ++ [SpreadHistory.mk uid spread_type spread_name input_data result today] })

/-- `_remaining_limit` from `bot/handlers.py` lines 122-133:
`remaining = max(daily_free_limit - count, 0)` over today's usage
count. -/
def remaining_limit (db : DB) (today : Nat) (uid : Int) (daily_free_limit : Int) : Int × Nat :=
  let count := daily_usage_count db today uid
  (max (daily_free_limit - (count : Int)) 0, count)

/-- The two messages `_limit_guard` can surface, abstracting the
localised texts `t("limit_reached", lang)` and `t("limit_info", lang,
remaining=remaining)`. -/
inductive GuardNote where
  | limitReached
  | limitInfo (remaining : Int)
deriving DecidableEq

/-- `_limit_guard` from `bot/handlers.py` lines 136-140: refuse with
the limit-reached message whenever `remaining <= 0`, otherwise allow
and attach the remaining-today notice.  The user's bonus balance is not
consulted. -/
def limit_guard (db : DB) (today : Nat) (uid : Int) (daily_free_limit : Int) : Bool × GuardNote :=
  let remaining := (remaining_limit db today uid daily_free_limit).1
  if remaining ≤ 0 then (false, GuardNote.limitReached)
  else (true, GuardNote.limitInfo remaining)

/-- `save_history` from `bot/services/tarot.py` lines 103-112: append
one history row; no daily limit is passed, so no bonus logic runs. -/
def tarot_save_history (db : DB) (today : Nat) (uid : Int)
    (spread_type spread_name input_payload result : String) : DB :=
  { db with history := db.history ++ [SpreadHistory.mk uid spread_type spread_name input_payload result today] }

/-- Storage effect of `tarot_choose_spread` (`bot/handlers.py` lines
483-509): consult `_limit_guard`; if refused, answer the note and
record nothing; otherwise record the spread result via
`tarot.save_history` (which passes no daily limit).  `spread_key` is
the chosen variant, `result_text` the composed spread text; the
returned flag says whether the action proceeded. -/
def tarot_choose_spread (db : DB) (today : Nat) (uid : Int) (daily_free_limit : Int)
    (spread_key result_text : String) : Bool × DB :=
  let guard := limit_guard db today uid daily_free_limit
  if guard.1 then
    (true, tarot_save_history db today uid ("tarot") spread_key ("\x7b\x7d") result_text)
  else (false, db)

/-- Python whitespace test used by `int(str)` argument stripping
(space, tab, newline, carriage return, vertical tab, form feed). -/
def isPySpace (c : Char) : Bool :=
  c == ' ' || c == '\t' || c == '\n' || c == '\r' || c.toNat == 11 || c.toNat == 12

/-- Strip leading and trailing Python whitespace from a character
list. -/
def pyStrip (cs : List Char) : List Char :=
  ((cs.dropWhile isPySpace).reverse.dropWhile isPySpace).reverse

/-- Digit-with-separators tail of Python's `int` literal grammar:
digits with single underscores allowed between digits only.  `acc` is
the value of the digits consumed so far. -/
def pyDigitsAux : Nat → List Char → Option Nat
  | acc, [] => some acc
  | acc, c :: cs =>
    if c.isDigit then pyDigitsAux (10 * acc + (c.toNat - 48)) cs
    else if c == '_' then
      match cs with
      | [] => none
      | d :: ds => if d.isDigit then pyDigitsAux (10 * acc + (d.toNat - 48)) ds else none
    else none

/-- Unsigned decimal literal of Python's `int` grammar: nonempty,
starts with a digit. -/
def pyDigits : List Char → Option Nat
  | [] => none
  | c :: cs => if c.isDigit then pyDigitsAux (c.toNat - 48) cs else none

/-- Python `int` applied to a character list: strip whitespace,
optional single sign, then a decimal literal; `none` models the
`ValueError` raised on anything else.  (Non-ASCII Unicode digits are
outside this model.) -/
def pyListInt (cs : List Char) : Option Int :=
  match pyStrip cs with
  | '+' :: rest => (pyDigits rest).map (fun n => (n : Int))
  | '-' :: rest => (pyDigits rest).map (fun n => -(n : Int))
  | rest => (pyDigits rest).map (fun n => (n : Int))

/-- Python `int(s)` on a string. -/
def pythonInt (s : String) : Option Int := pyListInt s.toList

/-- `parse_referral_payload` from `bot/services/referrals.py` lines
18-26: empty or missing payloads and payloads without the fixed
`ref_` marker decode to `None`; otherwise `int` is applied to the part
after the first underscore (which the marker fixes at index 3, so the
suffix is the payload minus its first four characters) and a
`ValueError` is caught as `None`. -/
def parse_referral_payload (payload : Option String) : Option Int :=
  match payload with
  | none => none
  | some p =>
    let cs := p.toList
    if cs.isEmpty then none
    else if !(cs.take 4 == ['r', 'e', 'f', '_']) then none
    else pyListInt (cs.drop 4)

/-- `apply_referral` from `bot/services/referrals.py` lines 29-60.
Guards (any failure returns `ReferralResult(None, False)` and leaves
the store untouched): the contact is a first contact, the subsystem is
enabled, the payload decodes, the inviter is not the new user, the
inviter row exists, and no referral link exists for the invited user.
On success, one commit sets the invited user's `referred_by`, appends
exactly one `Referral` row and adds the configured bonus to the
inviter's balance. -/
def apply_referral (db : DB) (new_user : User) (start_payload : Option String)
    (settings : ReferralSettings) (is_new_user : Bool) : ReferralResult × DB :=
  if !is_new_user || !settings.enabled then (⟨none, false⟩, db)
  else
    match parse_referral_payload start_payload with
    | none => (⟨none, false⟩, db)
    | some inviter_id =>
      if inviter_id == new_user.id then (⟨none, false⟩, db)
      else
        match db_get_user db inviter_id with
        | none => (⟨none, false⟩, db)
        | some inviter =>
          if db.referrals.any (fun r => r.invited_id == new_user.id) then (⟨none, false⟩, db)
          else
            (⟨some { inviter with free_spreads := inviter.free_spreads + settings.bonus }, true⟩,
             { db with
                users := db.users.map (fun u =>
                  if u.id == new_user.id then { u with referred_by := some inviter_id }
                  else if u.id == inviter_id then { u with free_spreads := u.free_spreads + settings.bonus }
                  else u),
                referrals := db.referrals ++ [Referral.mk inviter_id new_user.id] })

/-- Python `str.isdigit` (ASCII model): nonempty and all characters
decimal digits. -/
def str_isdigit (s : String) : Bool :=
  !s.isEmpty && s.toList.all (fun c => c.isDigit)

/-- Value of `int(s)` on a string that passed `str.isdigit`: a plain
left fold over the decimal digits. -/
def digitsToNat (s : String) : Nat :=
  s.toList.foldl (fun acc c => 10 * acc + (c.toNat - 48)) 0

/-- `_ensure_setting`-backed read of one settings key
(`bot/services/settings.py` lines 21-38): return the stored value, or
store and return the default when the key is absent. -/
def settings_lookup (store : List (String × String)) (key dflt : String) :
    String × List (String × String) :=
  match store.find? (fun kv => kv.1 == key) with
  | some kv => (kv.2, store)
  | none => (dflt, store ++ [(key, dflt)])

/-- `get_referral_settings` from `bot/services/settings.py` lines
54-65: read the three keys (creating them with defaults `5`, `0`,
`true` when absent); a value passing `isdigit` is parsed, anything else
falls back to the default (`5` and `0`); the enabled flag is every
value other than `false` compared case-insensitively. -/
def get_referral_settings (store : List (String × String)) :
    ReferralSettings × List (String × String) :=
  let b := settings_lookup store ("ref_bonus") ("5")
  let w := settings_lookup b.2 ("ref_welcome_bonus") ("0")
  let e := settings_lookup w.2 ("ref_system_enabled") ("true")
  let bonus_value : Int := if str_isdigit b.1 then (digitsToNat b.1 : Int) else 5
  let welcome_value : Int := if str_isdigit w.1 then (digitsToNat w.1 : Int) else 0
  let enabled_value : Bool :=
    !((e.1.toList.map (fun c => pyLowerCode c.toNat)) == (("false").toList.map Char.toNat))
  (⟨bonus_value, welcome_value, enabled_value⟩, e.2)

/-- Fixture for the rate-limit claims: one user (id 1) holding one
bonus credit, with three usage records already logged on day 0. -/
def limitDb : DB :=
  { users := [⟨1, none, 1⟩],
    history :=
      [⟨1, ("tarot"), ("one"), ("\x7b\x7d"), ("r1"), 0⟩,
       ⟨1, ("tarot"), ("one"), ("\x7b\x7d"), ("r2"), 0⟩,
       ⟨1, ("tarot"), ("one"), ("\x7b\x7d"), ("r3"), 0⟩],
    referrals := [] }

/-- Fixture for the record claim: user 1 holds one bonus credit and has
one usage record on day 0 (so a limit of 1 is already reached). -/
def bonusDb : DB :=
  { users := [⟨1, none, 1⟩],
    history := [⟨1, ("tarot"), ("one"), ("\x7b\x7d"), ("r1"), 0⟩],
    referrals := [] }

/-- Same store as `bonusDb` but with a zero bonus balance. -/
def plainDb : DB :=
  { users := [⟨1, none, 0⟩],
    history := [⟨1, ("tarot"), ("one"), ("\x7b\x7d"), ("r1"), 0⟩],
    referrals := [] }

/-- Fixture for the referral claims: an inviter (id 1) and a freshly
created invited user (id 2), no referral links yet. -/
def referralDb : DB :=
  { users := [⟨1, none, 0⟩, ⟨2, none, 0⟩],
    history := [],
    referrals := [] }

/-- Default referral settings (`ReferralSettings()` of
`bot/services/settings.py`). -/
def defaultReferralSettings : ReferralSettings := ⟨5, 0, true⟩

/-- Two-card fixture deck for the tarot witness. -/
def exDeck : List TarotCardView :=
  [⟨("Маг"), ("воля"), ("сомнение"), ("major"), none⟩,
   ⟨("Сила"), ("энергия"), ("слабость"), ("major"), none⟩]

theorem digitSumGo_congr : ∀ f g v : Nat, v ≤ f → v ≤ g → digitSumGo f v = digitSumGo g v := by
  intro f
  induction f with
  | zero =>
    intro g v hf _
    have hv : v = 0 := by omega
    subst hv
    cases g <;> simp [digitSumGo]
  | succ f ih =>
    intro g v hf hg
    cases g with
    | zero =>
      have hv : v = 0 := by omega
      subst hv
      simp [digitSumGo]
    | succ g =>
      simp only [digitSumGo]
      by_cases h : v < 10
      · simp [h]
      · simp only [if_neg h]
        have hlt : v / 10 < v := Nat.div_lt_self (by omega) (by norm_num)
        rw [ih g (v / 10) (by omega) (by omega)]

theorem digitSum_def (v : Nat) : digitSum v = if v < 10 then v else v % 10 + digitSum (v / 10) := by
  unfold digitSum
  cases v with
  | zero => simp [digitSumGo]
  | succ w =>
    simp only [digitSumGo]
    by_cases h : w + 1 < 10
    · simp [h]
    · simp only [if_neg h]
      have hlt : (w + 1) / 10 < w + 1 := Nat.div_lt_self (by omega) (by norm_num)
      rw [digitSumGo_congr w ((w + 1) / 10) ((w + 1) / 10) (by omega) le_rfl]

theorem digitSum_le (v : Nat) : digitSum v ≤ v := by
  induction v using Nat.strong_induction_on with
  | _ v ih =>
    rw [digitSum_def]
    by_cases h : v < 10
    · simp [h]
    · simp only [if_neg h]
      have hlt : v / 10 < v := Nat.div_lt_self (by omega) (by norm_num)
      have hle := ih (v / 10) hlt
      have hdm := Nat.div_add_mod v 10
      omega

theorem digitSum_lt (v : Nat) (h : 10 ≤ v) : digitSum v < v := by
  rw [digitSum_def]
  simp only [if_neg (show ¬v < 10 by omega)]
  have hle := digitSum_le (v / 10)
  have hdm := Nat.div_add_mod v 10
  have hm : v % 10 < 10 := Nat.mod_lt v (by norm_num)
  omega

theorem digitSum_pos (v : Nat) (h : 0 < v) : 0 < digitSum v := by
  induction v using Nat.strong_induction_on with
  | _ v ih =>
    rw [digitSum_def]
    by_cases h10 : v < 10
    · simp only [if_pos h10]; exact h
    · simp only [if_neg h10]
      have hlt : v / 10 < v := Nat.div_lt_self (by omega) (by norm_num)
      have := ih (v / 10) hlt (by omega)
      omega

theorem digitalRootGo_le9 (f v : Nat) (h : v ≤ 9) : digitalRootGo f v = v := by
  cases f <;> simp [digitalRootGo, h]

theorem digitalRootGo_congr : ∀ f g v : Nat, v ≤ f → v ≤ g → digitalRootGo f v = digitalRootGo g v := by
  intro f
  induction f with
  | zero =>
    intro g v hf _
    have hv : v = 0 := by omega
    subst hv
    rw [digitalRootGo_le9 0 0 (by norm_num), digitalRootGo_le9 g 0 (by norm_num)]
  | succ f ih =>
    intro g v hf hg
    by_cases h9 : v ≤ 9
    · rw [digitalRootGo_le9 _ _ h9, digitalRootGo_le9 _ _ h9]
    · cases g with
      | zero => omega
      | succ g =>
        simp only [digitalRootGo, if_neg h9]
        have hlt : digitSum v < v := digitSum_lt v (by omega)
        exact ih g (digitSum v) (by omega) (by omega)

theorem digital_root_def (v : Nat) :
    digital_root v = if v ≤ 9 then v else digital_root (digitSum v) := by
  unfold digital_root
  by_cases h9 : v ≤ 9
  · rw [digitalRootGo_le9 _ _ h9]
    simp [h9]
  · simp only [if_neg h9]
    cases v with
    | zero => omega
    | succ w =>
      simp only [digitalRootGo, if_neg h9]
      have hlt : digitSum (w + 1) < w + 1 := digitSum_lt _ (by omega)
      exact digitalRootGo_congr w (digitSum (w + 1)) (digitSum (w + 1)) (by omega) le_rfl

theorem digital_root_le9 (n : Nat) : digital_root n ≤ 9 := by
  induction n using Nat.strong_induction_on with
  | _ n ih =>
    rw [digital_root_def]
    by_cases h : n ≤ 9
    · simp [h]
    · simp only [if_neg h]
      exact ih (digitSum n) (digitSum_lt n (by omega))

theorem digital_root_pos (n : Nat) (h : 0 < n) : 0 < digital_root n := by
  induction n using Nat.strong_induction_on with
  | _ n ih =>
    rw [digital_root_def]
    by_cases h9 : n ≤ 9
    · simp only [if_pos h9]; exact h
    · simp only [if_neg h9]
      exact ih (digitSum n) (digitSum_lt n (by omega)) (digitSum_pos n h)

/-- Claim C7: for every positive integer, `_digital_root` terminates
(total in this embedding, the loop being bounded by `digitSum v < v`)
with a value in 1-9, never 0 on positive input; it is the identity on
arguments at most 9 (the loop's terminal condition) and hence
idempotent. -/
theorem digital_root_range_and_idempotent :
    (∀ n : Nat, 0 < n → 1 ≤ digital_root n ∧ digital_root n ≤ 9) ∧
    (∀ m : Nat, m ≤ 9 → digital_root m = m) ∧
    (∀ n : Nat, digital_root (digital_root n) = digital_root n) := by
  refine ⟨fun n hn => ⟨digital_root_pos n hn, digital_root_le9 n⟩, fun m hm => ?_, fun n => ?_⟩
  · rw [digital_root_def]
    simp [hm]
  · rw [digital_root_def (digital_root n)]
    simp [digital_root_le9 n]

/-- Witness for C7 at concrete inputs. -/
theorem digital_root_range_and_idempotent_witness :
    (0 < 942 ∧ 1 ≤ digital_root 942 ∧ digital_root 942 ≤ 9) ∧
    (7 ≤ 9 ∧ digital_root 7 = 7) ∧
    digital_root 942 = 6 ∧ digital_root (digital_root 942) = digital_root 942 :=
  ⟨⟨by decide, digital_root_range_and_idempotent.1 942 (by decide)⟩,
   ⟨by decide, digital_root_range_and_idempotent.2.1 7 (by decide)⟩,
   by decide,
   digital_root_range_and_idempotent.2.2 942⟩

theorem ascii_alpha_eq_latin (x : Nat) (hx : x < 128) :
    pyIsAlphaCode (pyLowerCode x) = decide (97 ≤ pyLowerCode x ∧ pyLowerCode x ≤ 122) := by
  unfold pyIsAlphaCode pyLowerCode
  by_cases h1 : (65 ≤ x ∧ x ≤ 90) ∨ (1040 ≤ x ∧ x ≤ 1071)
  · simp only [if_pos h1]
    rw [decide_eq_decide]
    omega
  · simp only [if_neg h1, if_neg (show ¬x = 1025 by omega)]
    rw [decide_eq_decide]
    omega

theorem filter_alpha_eq_latin (codes : List Nat) (h : ∀ x ∈ codes, x < 128) :
    (codes.map pyLowerCode).filter pyIsAlphaCode =
      (codes.map pyLowerCode).filter (fun n => decide (97 ≤ n ∧ n ≤ 122)) := by
  apply List.filter_congr
  intro a ha
  obtain ⟨x, hx, rfl⟩ := List.mem_map.mp ha
  exact ascii_alpha_eq_latin x (h x hx)

/-- Claim C8 (amended): `name_number` filters the lower-cased name to
its (Unicode-)alphabetic characters and sums `ord(char) - 96` over
them, which equals the 1-based Latin-alphabet position only for ASCII
letters; hence the claimed Latin-position behaviour holds exactly on
ASCII names, and a name with no alphabetic characters yields 0 with no
reduction. -/
theorem name_number_latin_agreement :
    (∀ name : String, (∀ c ∈ name.toList, c.toNat < 128) →
      name_number name = nameNumberLatinSpec name) ∧
    (∀ name : String, ((name.toList.map Char.toNat).map pyLowerCode).filter pyIsAlphaCode = [] →
      name_number name = 0) := by
  constructor
  · intro name h
    have hcodes : ∀ x ∈ name.toList.map Char.toNat, x < 128 := by
      intro x hx
      obtain ⟨c, hc, rfl⟩ := List.mem_map.mp hx
      exact h c hc
    simp only [name_number, nameNumberLatinSpec]
    rw [filter_alpha_eq_latin _ hcodes]
  · intro name h
    simp only [name_number]
    rw [h]
    simp

/-- Witness for C8 (amended) on an ASCII name. -/
theorem name_number_latin_agreement_witness :
    (∀ c ∈ ("Anna").toList, c.toNat < 128) ∧
    name_number ("Anna") = nameNumberLatinSpec ("Anna") ∧ name_number ("Anna") = 3 :=
  ⟨by decide, name_number_latin_agreement.1 ("Anna") (by decide), by decide⟩

/-- Counterexample for C8 as stated: the Cyrillic name `"б"` is kept by
the alphabetic filter but `ord("б") - 96 = 977` is not a 1-based
Latin-alphabet position, so the code returns 5 where the claimed
Latin-position computation yields 0. -/
theorem name_number_cyrillic_counterexample :
    name_number ("б") = 5 ∧ nameNumberLatinSpec ("б") = 0 ∧
    pyIsAlphaCode (pyLowerCode 1073) = true ∧ pyLowerCode 1073 - 96 = 977 ∧
    name_number ("б") ≠ nameNumberLatinSpec ("б") := by decide

/-- Claim C10: for birth dates whose components are positive, both
destiny numbers lie in 1-9, so `|a - b| ≤ 8` and the compatibility
score is `10 - |a - b|` in the range 2-10; the `max(_, 1)` clamp never
decides the result. -/
theorem compatibility_score_range (d1 m1 y1 d2 m2 y2 : Nat)
    (hd1 : 0 < d1) (hm1 : 0 < m1) (hy1 : 0 < y1)
    (hd2 : 0 < d2) (hm2 : 0 < m2) (hy2 : 0 < y2) :
    2 ≤ (compatibility (d1, m1, y1) (d2, m2, y2)).score ∧
    (compatibility (d1, m1, y1) (d2, m2, y2)).score ≤ 10 ∧
    (compatibility (d1, m1, y1) (d2, m2, y2)).score =
      10 - (((destiny_number d1 m1 y1 : Int) - (destiny_number d2 m2 y2 : Int)).natAbs : Int) := by
  have ha1 : 0 < destiny_number d1 m1 y1 := digital_root_pos _ (by omega)
  have ha9 : destiny_number d1 m1 y1 ≤ 9 := digital_root_le9 _
  have hb1 : 0 < destiny_number d2 m2 y2 := digital_root_pos _ (by omega)
  have hb9 : destiny_number d2 m2 y2 ≤ 9 := digital_root_le9 _
  unfold compatibility
  dsimp only
  omega

/-- Witness for C10 at concrete dates (destiny numbers 4 and 3, score
9). -/
theorem compatibility_score_range_witness :
    (0 < 1 ∧ 0 < 1 ∧ 0 < 2000 ∧ 0 < 5 ∧ 0 < 6 ∧ 0 < 1999) ∧
    destiny_number 1 1 2000 = 4 ∧ destiny_number 5 6 1999 = 3 ∧
    (compatibility (1, 1, 2000) (5, 6, 1999)).score = 9 ∧
    2 ≤ (compatibility (1, 1, 2000) (5, 6, 1999)).score :=
  ⟨by decide, by decide, by decide, by decide,
   (compatibility_score_range 1 1 2000 5 6 1999 (by decide) (by decide) (by decide)
     (by decide) (by decide) (by decide)).1⟩

theorem get_cons_eraseIdx_perm {α : Type} (l : List α) (i : Fin l.length) :
    l.get i :: l.eraseIdx i.val ~ l := by
  have hdrop : l.get i :: l.drop (i.val + 1) = l.drop i.val :=
    List.getElem_cons_drop l i.val i.isLt
  calc l.get i :: l.eraseIdx i.val
      = l.get i :: (l.take i.val ++ l.drop (i.val + 1)) := by
        rw [List.eraseIdx_eq_take_drop_succ]
    _ ~ l.take i.val ++ l.get i :: l.drop (i.val + 1) := List.perm_middle.symm
    _ = l.take i.val ++ l.drop i.val := by rw [hdrop]
    _ = l := List.take_append_drop i.val l

theorem sample_length {α : Type} (rand : Nat → Nat) :
    ∀ (k t : Nat) (pool : List α), (sample rand t k pool).length = min k pool.length := by
  intro k
  induction k with
  | zero => intro t pool; simp [sample]
  | succ k ih =>
    intro t pool
    by_cases h : 0 < pool.length
    · have hi : rand t % pool.length < pool.length := Nat.mod_lt _ h
      have herase := List.length_eraseIdx_add_one hi
      simp only [sample, dif_pos h, List.length_cons]
      rw [ih]
      omega
    · have hlen : pool.length = 0 := by omega
      simp [sample, h, hlen]

theorem sample_subperm {α : Type} (rand : Nat → Nat) :
    ∀ (k t : Nat) (pool : List α), sample rand t k pool <+~ pool := by
  intro k
  induction k with
  | zero => intro t pool; simp only [sample]; exact List.nil_subperm
  | succ k ih =>
    intro t pool
    by_cases h : 0 < pool.length
    · simp only [sample, dif_pos h]
      refine List.Subperm.trans ?_ (get_cons_eraseIdx_perm pool ⟨rand t % pool.length, Nat.mod_lt _ h⟩).subperm
      exact (List.subperm_cons _).mpr (ih (t + 1) (pool.eraseIdx (rand t % pool.length)))
    · simp only [sample, dif_neg h]
      exact List.nil_subperm

theorem sample_nodup {α : Type} (rand : Nat → Nat) (k t : Nat) (pool : List α)
    (hnd : pool.Nodup) : (sample rand t k pool).Nodup := by
  obtain ⟨l, hperm, hsub⟩ := sample_subperm rand k t pool
  exact (hperm.nodup_iff).mp (hsub.nodup hnd)

theorem orient_length :
    ∀ (l : List TarotCardView) (r : Nat → Bool) (t : Nat), (orient l r t).length = l.length := by
  intro l
  induction l with
  | nil => intro r t; simp [orient]
  | cons c cs ih => intro r t; simp [orient, ih]

theorem orient_mem (l : List TarotCardView) (r : Nat → Bool) :
    ∀ (t : Nat), ∀ d ∈ orient l r t, ∃ c ∈ l,
      (d.position = ("Перевёрнутая") ∧ d.meaning = c.reversed ∧ d.name = c.name) ∨
      (d.position = ("Прямое") ∧ d.meaning = c.upright ∧ d.name = c.name) := by
  induction l with
  | nil => intro t d hd; simp [orient] at hd
  | cons c cs ih =>
    intro t d hd
    simp only [orient, List.mem_cons] at hd
    rcases hd with hd | hd
    · refine ⟨c, by simp, ?_⟩
      by_cases hb : r t
      · rw [if_pos hb] at hd
        subst hd
        exact Or.inl ⟨rfl, rfl, rfl⟩
      · rw [if_neg hb] at hd
        subst hd
        exact Or.inr ⟨rfl, rfl, rfl⟩
    · obtain ⟨c0, hc0, hor⟩ := ih (t + 1) d hd
      exact ⟨c0, List.mem_cons_of_mem _ hc0, hor⟩

/-- Claim C6: `draw_cards` returns `min n |deck|` cards (so exactly `n`
when `n ≤ |deck|` and `|deck|` when `n` exceeds it); the sampled cards
are pairwise distinct entries of the deck (no repeats, given a
duplicate-free deck); each drawn card carries exactly one of the two
orientation tags and the meaning that tag selects from the card's two
stored meanings; and on an empty deck the composed spread result is the
explicit no-cards text rather than an error. -/
theorem draw_cards_contract (deck : List TarotCardView) (n : Nat)
    (sampleR : Nat → Nat) (orientR : Nat → Bool) (hnd : deck.Nodup) :
    ((draw_cards deck n sampleR orientR).length = min n deck.length) ∧
    ((sample sampleR 0 (min n deck.length) deck).Nodup ∧
      sample sampleR 0 (min n deck.length) deck <+~ deck) ∧
    (deck ≠ [] → draw_cards deck n sampleR orientR =
      orient (sample sampleR 0 (min n deck.length) deck) orientR 0) ∧
    (∀ d ∈ draw_cards deck n sampleR orientR, ∃ c ∈ deck,
      (d.position = ("Перевёрнутая") ∧ d.meaning = c.reversed ∧ d.name = c.name) ∨
      (d.position = ("Прямое") ∧ d.meaning = c.upright ∧ d.name = c.name)) ∧
    (deck = [] → ∀ title : String,
      format_cards title (draw_cards deck n sampleR orientR) = title ++ (": нет доступных карт")) := by
  refine ⟨?_, ⟨sample_nodup sampleR _ 0 deck hnd, sample_subperm sampleR _ 0 deck⟩, ?_, ?_, ?_⟩
  · by_cases hempty : deck.isEmpty
    · have : deck = [] := List.isEmpty_iff.mp hempty
      subst this
      simp [draw_cards]
    · simp only [draw_cards, if_neg hempty]
      rw [orient_length, sample_length]
      omega
  · intro hne
    have hfalse : deck.isEmpty = false := by
      cases deck with
      | nil => exact absurd rfl hne
      | cons a l => rfl
    simp [draw_cards, hfalse]
  · intro d hd
    simp only [draw_cards] at hd
    by_cases hempty : deck.isEmpty
    · rw [if_pos hempty] at hd
      simp at hd
    · rw [if_neg hempty] at hd
      obtain ⟨c, hc, hor⟩ := orient_mem _ orientR 0 d hd
      exact ⟨c, (sample_subperm sampleR _ 0 deck).subset hc, hor⟩
  · intro hdeck title
    subst hdeck
    simp [draw_cards, format_cards]

/-- Witness for C6 on a concrete two-card deck and concrete random
streams, plus the empty-deck spread text. -/
theorem draw_cards_contract_witness :
    exDeck.Nodup ∧
    (draw_cards exDeck 2 (fun _ => 0) (fun _ => false)).length = min 2 exDeck.length ∧
    draw_cards exDeck 2 (fun _ => 0) (fun _ => false) =
      [⟨("Маг"), ("Прямое"), ("воля")⟩, ⟨("Сила"), ("Прямое"), ("энергия")⟩] ∧
    spread_one_card [] (fun _ => 0) (fun _ => false) = ("Совет дня: нет доступных карт") :=
  ⟨by decide,
   (draw_cards_contract exDeck 2 (fun _ => 0) (fun _ => false) (by decide)).1,
   by decide, by decide⟩

theorem zodiac_for_date_eq_find (signs : List ZodiacSign) (target : Nat × Nat) :
    zodiac_for_date signs target = signs.find? (fun s => zodiac_matches s target) := by
  induction signs with
  | nil => rfl
  | cons s rest ih =>
    simp only [zodiac_for_date, List.find?]
    cases h : zodiac_matches s target
    · simp [h, ih]
    · simp [h]

/-- Claim C5 (amended): `zodiac_for_date` returns the first sign in
table order whose range matches, where the year-wrap branch is selected
by `start_month > end_month` — not by the pairwise comparison `start >
end` the claim states (the two differ only for a range starting and
ending in the same month) — the wrap branch matching when `(month, day)
>= start` or `(month, day) <= end` and the plain branch when `start <=
(month, day) <= end`; `none` is returned exactly when no sign matches.
With the seeded table, March 25 resolves to Овен (March 21 - April 19)
through the non-wrapping branch and January 5 to Козерог (December 22 -
January 19) through the year-wrap branch. -/
theorem zodiac_for_date_amended :
    (∀ (signs : List ZodiacSign) (target : Nat × Nat),
      zodiac_for_date signs target = signs.find? (fun s => zodiac_matches s target)) ∧
    (∀ (signs : List ZodiacSign) (target : Nat × Nat),
      (zodiac_for_date signs target = none ↔ ∀ s ∈ signs, ¬zodiac_matches s target)) ∧
    (zodiac_for_date zodiac_seed (3, 25) =
      some ⟨("Овен"), ("03-21"), ("04-19"), ("Энергия, решительность, действие.")⟩ ∧
      (parse_month_day ("03-21")).1 ≤ (parse_month_day ("04-19")).1) ∧
    (zodiac_for_date zodiac_seed (1, 5) =
      some ⟨("Козерог"), ("12-22"), ("01-19"), ("Стратег, дисциплина, надёжность.")⟩ ∧
      (parse_month_day ("01-19")).1 < (parse_month_day ("12-22")).1) := by
  refine ⟨zodiac_for_date_eq_find, fun signs target => ?_, by decide, by decide⟩
  rw [zodiac_for_date_eq_find]
  exact List.find?_eq_none

/-- Witness for C5 (amended): on a one-row table that matches nothing
at July 1, the scan returns `none` and indeed no row matches. -/
theorem zodiac_for_date_amended_witness :
    zodiac_for_date [wrapTestSign] (7, 1) = none ∧
    (∀ s ∈ [wrapTestSign], ¬zodiac_matches s (7, 1)) :=
  ⟨by decide, (zodiac_for_date_amended.2.1 [wrapTestSign] (7, 1)).mp (by decide)⟩

/-- Counterexample for C5 as stated: the synthetic row `05-20 .. 05-10`
has `start > end` as pairs, so under the claim's match rule May 25
matches through the wrap branch and the scan must return the row; the
code compares only the months (`5 > 5` fails), takes the plain branch
and returns `none`. -/
theorem zodiac_wrap_counterexample :
    pair_le (parse_month_day wrapTestSign.date_start) (parse_month_day wrapTestSign.date_end) = false ∧
    specZodiacMatches wrapTestSign (5, 25) = true ∧
    zodiacForDateSpec [wrapTestSign] (5, 25) = some wrapTestSign ∧
    zodiac_for_date [wrapTestSign] (5, 25) = none := by decide

theorem find?_map_id_preserving (l : List User) (f : User → User)
    (hf : ∀ u, (f u).id = u.id) (uid : Int) :
    (l.map f).find? (fun u => u.id == uid) = (l.find? (fun u => u.id == uid)).map f := by
  induction l with
  | nil => rfl
  | cons a l ih =>
    simp only [List.map_cons, List.find?]
    cases h : (a.id == uid) with
    | false =>
      have hfa : ((f a).id == uid) = false := by rw [hf a]; exact h
      simp [hfa, h, ih]
    | true =>
      have hfa : ((f a).id == uid) = true := by rw [hf a]; exact h
      simp [hfa, h]

/-- Claim C3: with every precondition satisfied — first contact,
subsystem enabled, token decoding to an existing inviter different from
the new user, and no prior link for the invited user — `apply_referral`
reports the bonus applied, appends exactly one referral link (which is
then the only link for that invited user), sets the invited user's
inviter reference, adds the configured bonus to the inviter's balance,
touches no other table, and — applied a second time for the same
invited user — changes nothing and credits nothing. -/
theorem apply_referral_success
    (db : DB) (nu : User) (payload : String) (settings : ReferralSettings)
    (iid : Int) (inviter nu0 : User)
    (hparse : parse_referral_payload (some payload) = some iid)
    (henabled : settings.enabled = true)
    (hself : iid ≠ nu.id)
    (hinv : db_get_user db iid = some inviter)
    (hnu0 : db_get_user db nu.id = some nu0)
    (hnolink : ∀ r ∈ db.referrals, r.invited_id ≠ nu.id) :
    (apply_referral db nu (some payload) settings true).1 =
      ⟨some { inviter with free_spreads := inviter.free_spreads + settings.bonus }, true⟩ ∧
    (apply_referral db nu (some payload) settings true).2.referrals =
      db.referrals ++ [⟨iid, nu.id⟩] ∧
    ((apply_referral db nu (some payload) settings true).2.referrals.filter
      (fun r => r.invited_id == nu.id)) = [⟨iid, nu.id⟩] ∧
    db_get_user (apply_referral db nu (some payload) settings true).2 nu.id =
      some { nu0 with referred_by := some iid } ∧
    db_get_user (apply_referral db nu (some payload) settings true).2 iid =
      some { inviter with free_spreads := inviter.free_spreads + settings.bonus } ∧
    (apply_referral db nu (some payload) settings true).2.history = db.history ∧
    apply_referral (apply_referral db nu (some payload) settings true).2
        { nu with referred_by := some iid } (some payload) settings true =
      (⟨none, false⟩, (apply_referral db nu (some payload) settings true).2) := by
  have hselfb : (iid == nu.id) = false := beq_eq_false_iff_ne.mpr hself
  have hany : (db.referrals.any (fun r => r.invited_id == nu.id)) = false := by
    rw [List.any_eq_false]
    intro r hr
    simpa using hnolink r hr
  have hstep : apply_referral db nu (some payload) settings true =
      (⟨some { inviter with free_spreads := inviter.free_spreads + settings.bonus }, true⟩,
       { db with
          users := db.users.map (fun u =>
            if u.id == nu.id then { u with referred_by := some iid }
            else if u.id == iid then { u with free_spreads := u.free_spreads + settings.bonus }
            else u),
          referrals := db.referrals ++ [Referral.mk iid nu.id] }) := by
    unfold apply_referral
    simp [hparse, henabled, hselfb, hinv, hany]
  have hf : ∀ u : User,
      ((fun u => if u.id == nu.id then { u with referred_by := some iid }
        else if u.id == iid then { u with free_spreads := u.free_spreads + settings.bonus }
        else u) u).id = u.id := by
    intro u
    by_cases h1 : (u.id == nu.id) = true
    · simp [h1]
    · by_cases h2 : (u.id == iid) = true <;> simp [h1, h2]
  have hnu0f : db.users.find? (fun u => u.id == nu.id) = some nu0 := hnu0
  have hinvf : db.users.find? (fun u => u.id == iid) = some inviter := hinv
  have hnub : (nu0.id == nu.id) = true := by simpa using List.find?_some hnu0f
  have hinvb : (inviter.id == iid) = true := by simpa using List.find?_some hinvf
  have hiid : inviter.id = iid := by simpa using hinvb
  have hGetNu : db_get_user (apply_referral db nu (some payload) settings true).2 nu.id =
      some { nu0 with referred_by := some iid } := by
    rw [hstep]
    simp only [db_get_user]
    rw [find?_map_id_preserving _ _ hf, hnu0f]
    have hnup : nu0.id = nu.id := by simpa using hnub
    simp [hnup]
  have hGetInv : db_get_user (apply_referral db nu (some payload) settings true).2 iid =
      some { inviter with free_spreads := inviter.free_spreads + settings.bonus } := by
    rw [hstep]
    simp only [db_get_user]
    rw [find?_map_id_preserving _ _ hf, hinvf]
    simp [hiid, hself]
  have hFilter : ((apply_referral db nu (some payload) settings true).2.referrals.filter
      (fun r => r.invited_id == nu.id)) = [⟨iid, nu.id⟩] := by
    rw [hstep]
    simp only [List.filter_append]
    rw [List.filter_eq_nil_iff.mpr (fun r hr => by simpa using hnolink r hr)]
    simp
  have hRetry : apply_referral (apply_referral db nu (some payload) settings true).2
      { nu with referred_by := some iid } (some payload) settings true =
      (⟨none, false⟩, (apply_referral db nu (some payload) settings true).2) := by
    have hany2 : ((apply_referral db nu (some payload) settings true).2.referrals.any
        (fun r => r.invited_id == nu.id)) = true := by
      rw [hstep]
      simp
    conv_lhs => rw [apply_referral]
    rw [hparse]
    have hGetInvSome := hGetInv
    simp [henabled, hselfb, hGetInvSome, hany2]
  exact ⟨by rw [hstep], by rw [hstep], hFilter, hGetNu, hGetInv, by rw [hstep], hRetry⟩

/-- Witness for C3: inviter 1 invites user 2 with token `ref_1` under
default settings; the bonus is applied, balance 0 becomes 5, exactly
one link is created. -/
theorem apply_referral_success_witness :
    (parse_referral_payload (some ("ref_1")) = some 1 ∧
     defaultReferralSettings.enabled = true ∧ (1 : Int) ≠ 2 ∧
     db_get_user referralDb 1 = some ⟨1, none, 0⟩ ∧
     db_get_user referralDb 2 = some ⟨2, none, 0⟩) ∧
    (apply_referral referralDb ⟨2, none, 0⟩ (some ("ref_1")) defaultReferralSettings true).1 =
      ⟨some ⟨1, none, 5⟩, true⟩ ∧
    (apply_referral referralDb ⟨2, none, 0⟩ (some ("ref_1")) defaultReferralSettings true).2.referrals =
      [⟨1, 2⟩] :=
  ⟨⟨by decide, by decide, by decide, by decide, by decide⟩,
   by
    have h := (apply_referral_success referralDb ⟨2, none, 0⟩ ("ref_1") defaultReferralSettings 1
      ⟨1, none, 0⟩ ⟨2, none, 0⟩ (by decide) (by decide) (by decide) (by decide) (by decide)
      (by decide)).1
    simpa using h,
   by
    have h := (apply_referral_success referralDb ⟨2, none, 0⟩ ("ref_1") defaultReferralSettings 1
      ⟨1, none, 0⟩ ⟨2, none, 0⟩ (by decide) (by decide) (by decide) (by decide) (by decide)
      (by decide)).2.1
    simpa using h⟩

/-- Claim C4: whenever any precondition fails — missing payload, no
`ref_` marker, suffix on which `int` raises, a non-first contact, the
subsystem disabled, self-referral, unknown inviter, or an existing link
for the invited user — `apply_referral` returns no inviter with
`bonus_applied = false` and the store is returned unchanged; in the
embedding the function is total, modelling that no error reaches the
caller. -/
theorem apply_referral_noop :
    (parse_referral_payload none = none) ∧
    (∀ p : String, p.toList.take 4 ≠ ['r', 'e', 'f', '_'] → parse_referral_payload (some p) = none) ∧
    (∀ p : String, pyListInt (p.toList.drop 4) = none → parse_referral_payload (some p) = none) ∧
    (∀ (db : DB) (nu : User) (payload : Option String) (settings : ReferralSettings) (is_new : Bool),
      (is_new = false ∨ settings.enabled = false ∨ parse_referral_payload payload = none ∨
        (∃ iid, parse_referral_payload payload = some iid ∧
          (iid = nu.id ∨ db_get_user db iid = none ∨ ∃ r ∈ db.referrals, r.invited_id = nu.id))) →
      apply_referral db nu payload settings is_new = (⟨none, false⟩, db)) := by
  refine ⟨rfl, ?_, ?_, ?_⟩
  · intro p hp
    simp only [parse_referral_payload]
    simp
    intro _ htake
    exact absurd htake hp
  · intro p hint
    simp only [parse_referral_payload]
    simp
    intro _ _
    exact hint
  · intro db nu payload settings is_new hfail
    unfold apply_referral
    rcases hfail with h | h | h | ⟨iid, hparse, hcase⟩
    · subst h; simp
    · rw [h]; simp
    · rw [h]; simp
    · rw [hparse]
      rcases hcase with h | h | ⟨r, hr, hre⟩
      · subst h; simp
      · simp [h]
      · have hany : (db.referrals.any (fun r => r.invited_id == nu.id)) = true := by
          rw [List.any_eq_true]
          exact ⟨r, hr, by simp [hre]⟩
        cases hdb : db_get_user db iid <;> simp [hany, hdb]

/-- Witness for C4: a malformed token and a token with an existing link
both leave the store untouched. -/
theorem apply_referral_noop_witness :
    ((("ref_abc") : String).toList.drop 4 = ['a', 'b', 'c'] ∧
      pyListInt (['a', 'b', 'c']) = none ∧
      parse_referral_payload (some ("ref_abc")) = none) ∧
    apply_referral referralDb ⟨2, none, 0⟩ (some ("ref_abc")) defaultReferralSettings true =
      (⟨none, false⟩, referralDb) ∧
    apply_referral referralDb ⟨2, none, 0⟩ (some ("start")) defaultReferralSettings false =
      (⟨none, false⟩, referralDb) :=
  ⟨⟨by decide, by decide,
    apply_referral_noop.2.2.1 ("ref_abc") (by decide)⟩,
   apply_referral_noop.2.2.2 referralDb ⟨2, none, 0⟩ (some ("ref_abc")) defaultReferralSettings true
     (Or.inr (Or.inr (Or.inl (by decide)))),
   apply_referral_noop.2.2.2 referralDb ⟨2, none, 0⟩ (some ("start")) defaultReferralSettings false
     (Or.inl rfl)⟩

theorem save_spread_users_cases (db : DB) (today : Nat) (uid : Int)
    (st sn ind res : String) (limit : Option Int) (u : User)
    (hu : db_get_user db uid = some u) :
    ((save_spread db today uid st sn ind res limit).2.users = db.users) ∨
    (0 < u.free_spreads ∧ (save_spread db today uid st sn ind res limit).2.users =
      db.users.map (fun x =>
        if x.id == uid then { x with free_spreads := x.free_spreads - 1 } else x)) := by
  cases limit with
  | none => exact Or.inl (by simp [save_spread])
  | some L =>
    by_cases h1 : L ≤ (daily_usage_count db today uid : Int)
    · by_cases h2 : 0 < u.free_spreads
      · exact Or.inr ⟨h2, by simp [save_spread, hu, h1, h2]⟩
      · exact Or.inl (by simp [save_spread, hu, h1, h2])
    · exact Or.inl (by simp [save_spread, hu, h1])

theorem apply_referral_users_cases (db : DB) (nu : User) (payload : Option String)
    (settings : ReferralSettings) (is_new : Bool) :
    ((apply_referral db nu payload settings is_new).2.users = db.users) ∨
    (∃ iid : Int, (apply_referral db nu payload settings is_new).2.users =
      db.users.map (fun x =>
        if x.id == nu.id then { x with referred_by := some iid }
        else if x.id == iid then { x with free_spreads := x.free_spreads + settings.bonus }
        else x)) := by
  unfold apply_referral
  split
  · exact Or.inl rfl
  · split
    · exact Or.inl rfl
    · split
      · exact Or.inl rfl
      · split
        · exact Or.inl rfl
        · split
          · exact Or.inl rfl
          · exact Or.inr ⟨_, rfl⟩

/-- Claim C2 (amended): with a daily limit supplied and the user
present, `save_spread` appends exactly one history row; when today's
usage count has reached the limit and the bonus balance is positive it
decrements the balance by exactly 1 and reports the bonus use through
its boolean return value — the `SpreadHistory` row itself has no
bonus-funded field, so the appended record is not marked; in all other
cases the balance and the user table are unchanged and the call
returns `False`. -/
theorem save_spread_amended (db : DB) (today : Nat) (uid : Int)
    (st sn ind res : String) (limit : Int) (u : User)
    (hu : db_get_user db uid = some u) :
    ((save_spread db today uid st sn ind res (some limit)).2.history =
      db.history ++ [⟨uid, st, sn, ind, res, today⟩]) ∧
    ((limit ≤ (daily_usage_count db today uid : Int) ∧ 0 < u.free_spreads) →
      ((save_spread db today uid st sn ind res (some limit)).1 = true ∧
        db_get_user (save_spread db today uid st sn ind res (some limit)).2 uid =
          some { u with free_spreads := u.free_spreads - 1 })) ∧
    (¬(limit ≤ (daily_usage_count db today uid : Int) ∧ 0 < u.free_spreads) →
      ((save_spread db today uid st sn ind res (some limit)).1 = false ∧
        (save_spread db today uid st sn ind res (some limit)).2.users = db.users)) := by
  have huf : db.users.find? (fun x => x.id == uid) = some u := hu
  have hup : u.id = uid := by simpa using List.find?_some huf
  have hf : ∀ x : User,
      ((fun x => if x.id == uid then { x with free_spreads := x.free_spreads - 1 } else x) x).id
        = x.id := by
    intro x
    by_cases hx : (x.id == uid) = true <;> simp [hx]
  refine ⟨?_, ?_, ?_⟩
  · by_cases h1 : limit ≤ (daily_usage_count db today uid : Int)
    · by_cases h2 : 0 < u.free_spreads
      · simp [save_spread, hu, h1, h2]
      · simp [save_spread, hu, h1, h2]
    · simp [save_spread, hu, h1]
  · rintro ⟨h1, h2⟩
    constructor
    · simp [save_spread, hu, h1, h2]
    · have husers : (save_spread db today uid st sn ind res (some limit)).2.users =
          db.users.map (fun x =>
            if x.id == uid then { x with free_spreads := x.free_spreads - 1 } else x) := by
        simp [save_spread, hu, h1, h2]
      simp only [db_get_user, husers]
      rw [find?_map_id_preserving _ _ hf, huf]
      simp [hup]
  · intro hnot
    constructor
    · by_cases h1 : limit ≤ (daily_usage_count db today uid : Int)
      · have h2 : ¬0 < u.free_spreads := fun h2 => hnot ⟨h1, h2⟩
        simp [save_spread, hu, h1, h2]
      · simp [save_spread, hu, h1]
    · by_cases h1 : limit ≤ (daily_usage_count db today uid : Int)
      · have h2 : ¬0 < u.free_spreads := fun h2 => hnot ⟨h1, h2⟩
        simp [save_spread, hu, h1, h2]
      · simp [save_spread, hu, h1]

/-- Witness for C2 (amended): user 1 with one bonus credit and the
limit of 1 already reached; the call appends the row, returns `True`
and drops the balance to 0. -/
theorem save_spread_amended_witness :
    (db_get_user bonusDb 1 = some ⟨1, none, 1⟩ ∧
      (1 : Int) ≤ (daily_usage_count bonusDb 0 1 : Int) ∧ (0 : Int) < 1) ∧
    (save_spread bonusDb 0 1 ("tarot") ("one") ("\x7b\x7d") ("ok") (some 1)).2.history =
      bonusDb.history ++ [⟨1, ("tarot"), ("one"), ("\x7b\x7d"), ("ok"), 0⟩] ∧
    ((save_spread bonusDb 0 1 ("tarot") ("one") ("\x7b\x7d") ("ok") (some 1)).1 = true ∧
      db_get_user (save_spread bonusDb 0 1 ("tarot") ("one") ("\x7b\x7d") ("ok") (some 1)).2 1 =
        some ⟨1, none, 0⟩) :=
  ⟨by decide,
   (save_spread_amended bonusDb 0 1 ("tarot") ("one") ("\x7b\x7d") ("ok") 1 ⟨1, none, 1⟩ (by decide)).1,
   by
    have h := (save_spread_amended bonusDb 0 1 ("tarot") ("one") ("\x7b\x7d") ("ok") 1 ⟨1, none, 1⟩
      (by decide)).2.1 ⟨by decide, by decide⟩
    simpa using h⟩

/-- Counterexample for C2 as stated: two stores identical except for
the user's bonus balance (1 vs 0), both at the daily limit; the
bonus-funded call and the plain call append exactly the same history
row — the row carries no bonus-funded mark, `SpreadHistory` having no
such field; only the boolean return value (which the callers discard)
differs. -/
theorem save_spread_no_mark_counterexample :
    (save_spread bonusDb 0 1 ("tarot") ("one") ("\x7b\x7d") ("ok") (some 1)).1 = true ∧
    (save_spread plainDb 0 1 ("tarot") ("one") ("\x7b\x7d") ("ok") (some 1)).1 = false ∧
    (save_spread bonusDb 0 1 ("tarot") ("one") ("\x7b\x7d") ("ok") (some 1)).2.history =
      (save_spread plainDb 0 1 ("tarot") ("one") ("\x7b\x7d") ("ok") (some 1)).2.history ∧
    db_get_user (save_spread bonusDb 0 1 ("tarot") ("one") ("\x7b\x7d") ("ok") (some 1)).2 1 =
      some ⟨1, none, 0⟩ := by decide

/-- Claim C1, evaluated at the failing input: user 1 holds one bonus
credit and has exhausted the free quota (3 records on day 0, limit 3);
`_limit_guard` refuses with the limit-reached message without
consulting the bonus balance, and `tarot_choose_spread` therefore
records nothing and leaves the store — the bonus balance included —
unchanged, where the claim requires the action to proceed and the
balance to drop by 1. -/
theorem limit_guard_ignores_bonus :
    db_get_user limitDb 1 = some ⟨1, none, 1⟩ ∧
    daily_usage_count limitDb 0 1 = 3 ∧
    remaining_limit limitDb 0 1 3 = (0, 3) ∧
    limit_guard limitDb 0 1 3 = (false, GuardNote.limitReached) ∧
    tarot_choose_spread limitDb 0 1 3 ("tarot_one") ("result") = (false, limitDb) := by decide

/-- Claim C9: every operation touching a user's bonus balance keeps it
a non-negative integer: the settings reader never yields a negative
bonus; `save_spread` decrements the fetched user's balance only when it
is strictly positive and by exactly 1; `apply_referral` either leaves a
balance unchanged or adds the configured bonus. -/
theorem bonus_balance_invariant :
    (∀ store : List (String × String), 0 ≤ (get_referral_settings store).1.bonus) ∧
    (∀ (db : DB) (today : Nat) (uid : Int) (st sn ind res : String) (limit : Option Int)
      (u u2 : User),
      db_get_user db uid = some u → 0 ≤ u.free_spreads →
      db_get_user (save_spread db today uid st sn ind res limit).2 uid = some u2 →
      (0 ≤ u2.free_spreads ∧
        (u2.free_spreads = u.free_spreads ∨
          (0 < u.free_spreads ∧ u2.free_spreads = u.free_spreads - 1)))) ∧
    (∀ (db : DB) (nu : User) (payload : Option String) (settings : ReferralSettings)
      (is_new : Bool) (uid : Int) (u u2 : User),
      0 ≤ settings.bonus → db_get_user db uid = some u → 0 ≤ u.free_spreads →
      db_get_user (apply_referral db nu payload settings is_new).2 uid = some u2 →
      (0 ≤ u2.free_spreads ∧
        (u2.free_spreads = u.free_spreads ∨
          u2.free_spreads = u.free_spreads + settings.bonus))) := by
  refine ⟨?_, ?_, ?_⟩
  · intro store
    simp only [get_referral_settings]
    split
    · exact Int.natCast_nonneg _
    · norm_num
  · intro db today uid st sn ind res limit u u2 hu hnn hu2
    have huf : db.users.find? (fun x => x.id == uid) = some u := hu
    have hup : u.id = uid := by simpa using List.find?_some huf
    rcases save_spread_users_cases db today uid st sn ind res limit u hu with h | ⟨hpos, h⟩
    · have hsame : db_get_user (save_spread db today uid st sn ind res limit).2 uid =
          db_get_user db uid := by
        simp only [db_get_user, h]
      rw [hsame, hu] at hu2
      injection hu2 with h2
      subst h2
      exact ⟨hnn, Or.inl rfl⟩
    · have hf : ∀ x : User,
          ((fun x => if x.id == uid then { x with free_spreads := x.free_spreads - 1 } else x) x).id
            = x.id := by
        intro x
        by_cases hx : (x.id == uid) = true <;> simp [hx]
      have hdec : db_get_user (save_spread db today uid st sn ind res limit).2 uid =
          some { u with free_spreads := u.free_spreads - 1 } := by
        simp only [db_get_user, h]
        rw [find?_map_id_preserving _ _ hf, huf]
        simp [hup]
      rw [hdec] at hu2
      injection hu2 with h2
      subst h2
      exact ⟨by simp; omega, Or.inr ⟨hpos, rfl⟩⟩
  · intro db nu payload settings is_new uid u u2 hbonus hu hnn hu2
    have huf : db.users.find? (fun x => x.id == uid) = some u := hu
    have hup : u.id = uid := by simpa using List.find?_some huf
    rcases apply_referral_users_cases db nu payload settings is_new with h | ⟨iid, h⟩
    · have hsame : db_get_user (apply_referral db nu payload settings is_new).2 uid =
          db_get_user db uid := by
        simp only [db_get_user, h]
      rw [hsame, hu] at hu2
      injection hu2 with h2
      subst h2
      exact ⟨hnn, Or.inl rfl⟩
    · have hf : ∀ x : User,
          ((fun x => if x.id == nu.id then { x with referred_by := some iid }
            else if x.id == iid then { x with free_spreads := x.free_spreads + settings.bonus }
            else x) x).id = x.id := by
        intro x
        by_cases hx1 : (x.id == nu.id) = true
        · simp [hx1]
        · by_cases hx2 : (x.id == iid) = true <;> simp [hx1, hx2]
      have hmap : db_get_user (apply_referral db nu payload settings is_new).2 uid =
          some ((fun x => if x.id == nu.id then { x with referred_by := some iid }
            else if x.id == iid then { x with free_spreads := x.free_spreads + settings.bonus }
            else x) u) := by
        simp only [db_get_user, h]
        rw [find?_map_id_preserving _ _ hf, huf]
        rfl
      rw [hmap] at hu2
      injection hu2 with h2
      subst h2
      by_cases hx1 : (u.id == nu.id) = true
      · exact ⟨by simpa [hx1] using hnn, Or.inl (by simp [hx1])⟩
      · by_cases hx2 : (u.id == iid) = true
        · refine ⟨?_, Or.inr (by simp [hx1, hx2])⟩
          simp only [hx1, hx2]
          simp
          omega
        · exact ⟨by simpa [hx1, hx2] using hnn, Or.inl (by simp [hx1, hx2])⟩

/-- Witness for C9: the empty settings store yields bonus 5 at least 0;
the bonus-consuming record call keeps the balance at 0 at least 0; a
successful referral raises the inviter's balance from 0 to 5 at
least 0. -/
theorem bonus_balance_invariant_witness :
    (0 ≤ (get_referral_settings []).1.bonus ∧ (get_referral_settings []).1.bonus = 5) ∧
    (0 ≤ (0 : Int) ∧
      db_get_user (save_spread bonusDb 0 1 ("tarot") ("one") ("\x7b\x7d") ("ok") (some 1)).2 1 =
        some ⟨1, none, 0⟩ ∧ (0 : Int) ≤ 0) ∧
    (db_get_user (apply_referral referralDb ⟨2, none, 0⟩ (some ("ref_1"))
        defaultReferralSettings true).2 1 = some ⟨1, none, 5⟩ ∧ (0 : Int) ≤ 5) :=
  ⟨⟨bonus_balance_invariant.1 [], by decide⟩,
   ⟨by decide, by decide,
    (bonus_balance_invariant.2.1 bonusDb 0 1 ("tarot") ("one") ("\x7b\x7d") ("ok") (some 1)
      ⟨1, none, 1⟩ ⟨1, none, 0⟩ (by decide) (by decide) (by decide)).1⟩,
   ⟨by decide,
    (bonus_balance_invariant.2.2 referralDb ⟨2, none, 0⟩ (some ("ref_1")) defaultReferralSettings
      true 1 ⟨1, none, 0⟩ ⟨1, none, 5⟩ (by decide) (by decide) (by decide) (by decide)).1⟩⟩
